import Mathlib

set_option maxHeartbeats 2000000

/-
  Verification development for best_price_entry_annealing.py.

  The script builds a pandas DataFrame of 14 closing prices, derives
  Buy_Signal and Sell_Signal columns, builds a dimod BinaryQuadraticModel
  (create_bqm), submits it to a sampler (solve_bqm, an external service),
  extracts optimal buy prices from the response (get_optimal_buy_prices)
  and reports their minimum (main), finally exporting the signals to CSV.

  Embedding choices:
  - Python floats are modelled as exact rationals; every numeric literal in
    the script is a terminating decimal and no rounding behaviour is
    relevant to the properties below.
  - Python strings are modelled as lists of characters; f-string
    formatting, str.split and the substring membership test are modelled by
    the executable functions below.
  - The pandas DataFrame is modelled as a structure of columns, with
    positional iloc reads modelled by List.getD.
-/

/-- Decimal digit character (d below 10 gives a character among 0-9),
as produced by Python str on integers. -/
def digitChar (d : Nat) : Char := Char.ofNat (48 + d)

/-- Fuel-driven helper for the decimal digits of a natural number; the
fuel only drives structural termination and never runs out when it starts
at the number itself. -/
def natDigitsAux : Nat → Nat → List Char
  | 0, n => [digitChar n]
  | fuel + 1, n =>
    if n < 10 then [digitChar n]
    else natDigitsAux fuel (n / 10) ++ [digitChar (n % 10)]

/-- Decimal digits of a natural number, most significant first: the model
of Python str i for a nonnegative integer i, as used by the f-strings in
create_bqm. -/
def natDigits (n : Nat) : List Char := natDigitsAux n n

/-- Model of Python int on a string of decimal digits, as used on
key.split results in get_optimal_buy_prices. -/
def parseDigits (l : List Char) : Nat :=
  l.foldl (fun a c => a * 10 + (c.toNat - 48)) 0

/-- The variable name built by the f-string for buy variables at index i. -/
def buyName (i : Nat) : List Char := 'b' :: 'u' :: 'y' :: '_' :: natDigits i

/-- The variable name built by the f-string for sell variables at index i. -/
def sellName (i : Nat) : List Char := 's' :: 'e' :: 'l' :: 'l' :: '_' :: natDigits i

/-- The literal substring tested by get_optimal_buy_prices against each key. -/
def buyTag : List Char := ['b', 'u', 'y', '_']

/-- Accumulator version of Python str.split on a one-character separator. -/
def splitOnCharAux (c : Char) (cur : List Char) : List Char → List (List Char)
  | [] => [cur.reverse]
  | x :: xs =>
    if x = c then cur.reverse :: splitOnCharAux c [] xs
    else splitOnCharAux c (x :: cur) xs

/-- Model of Python key.split for a one-character separator. -/
def splitOnChar (c : Char) (l : List Char) : List (List Char) := splitOnCharAux c [] l

/-- Model of the index extraction in get_optimal_buy_prices: split the key
on the underscore and parse field 1 as an integer. -/
def parseIndex (key : List Char) : Nat :=
  parseDigits ((splitOnChar '_' key).getD 1 [])

/-- Bool test that p is an initial segment of l (helper for the Python
substring membership test). -/
def startsWithSeg : List Char → List Char → Bool
  | [], _ => true
  | _ :: _, [] => false
  | p :: ps, x :: xs => p == x && startsWithSeg ps xs

/-- Model of the Python substring membership test of p inside l. -/
def containsSeg (p : List Char) : List Char → Bool
  | [] => startsWithSeg p []
  | x :: xs => startsWithSeg p (x :: xs) || containsSeg p xs

/-- Column model of the pandas DataFrame built by the script: the Date and
Close columns from the data dict, and the two derived signal columns. -/
structure DataFrame where
  Date : List (List Char)
  Close : List ℚ
  Buy_Signal : List Bool
  Sell_Signal : List Bool
deriving DecidableEq

/-- Model of len df, the number of rows; the script only builds frames
whose columns all share the length of the Close column. -/
def dfLen (df : DataFrame) : Nat := df.Close.length

/-- Positional read of the Close column. -/
def closeAt (df : DataFrame) (i : Nat) : ℚ := df.Close.getD i 0

/-- Positional read of the Buy_Signal column. -/
def buySigAt (df : DataFrame) (i : Nat) : Bool := df.Buy_Signal.getD i false

/-- Positional read of the Sell_Signal column. -/
def sellSigAt (df : DataFrame) (i : Nat) : Bool := df.Sell_Signal.getD i false

/-- dimod BinaryQuadraticModel with BINARY vartype: linear biases keyed by
variable name in insertion order, and quadratic couplings keyed by
unordered variable pairs in insertion order. -/
structure BQM where
  linear : List (List Char × ℚ)
  quadratic : List ((List Char × List Char) × ℚ)
deriving DecidableEq

/-- dimod BinaryQuadraticModel.empty. -/
def BQM.empty : BQM := ⟨[], []⟩

/-- dimod add_variable: a fresh variable is appended with the given bias;
an existing one has the bias added onto its current bias. -/
def addVariable (b : BQM) (v : List Char) (bias : ℚ) : BQM :=
  if b.linear.any (fun p => p.1 == v) then
    { b with linear := b.linear.map (fun p => if p.1 == v then (p.1, p.2 + bias) else p) }
  else
    { b with linear := b.linear ++ [(v, bias)] }

/-- Unordered equality of variable pairs (dimod couplings are undirected). -/
def samePair (p q : (List Char × List Char)) : Bool :=
  (p.1 == q.1 && p.2 == q.2) || (p.1 == q.2 && p.2 == q.1)

/-- dimod add_interaction: endpoints missing from the model are created
with bias 0, then the coupling is appended (or summed onto an existing
coupling over the same pair). -/
def addInteraction (b : BQM) (u v : List Char) (w : ℚ) : BQM :=
  let b1 := if b.linear.any (fun p => p.1 == u) then b
    else { b with linear := b.linear ++ [(u, 0)] }
  let b2 := if b1.linear.any (fun p => p.1 == v) then b1
    else { b1 with linear := b1.linear ++ [(v, 0)] }
  if b2.quadratic.any (fun q => samePair q.1 (u, v)) then
    { b2 with quadratic := b2.quadratic.map (fun q =>
        if samePair q.1 (u, v) then (q.1, q.2 + w) else q) }
  else
    { b2 with quadratic := b2.quadratic ++ [((u, v), w)] }

/-- Body of the first loop of create_bqm: variable creation at index i. -/
def step1 (df : DataFrame) (b : BQM) (i : Nat) : BQM :=
  let b1 := if buySigAt df i then addVariable b (buyName i) (-(closeAt df i)) else b
  if sellSigAt df i then addVariable b1 (sellName i) (closeAt df i) else b1

/-- Body of the second loop of create_bqm: conflict interaction at index i. -/
def step2 (df : DataFrame) (b : BQM) (i : Nat) : BQM :=
  if buySigAt df i && sellSigAt df i then addInteraction b (buyName i) (sellName i) 1 else b

/-- create_bqm from the script: loop i in range 1 to len df adding signal
variables, then the same range adding buy/sell conflict interactions. -/
def create_bqm (df : DataFrame) : BQM :=
  let bqm := BQM.empty
  let bqm := (List.range' 1 (dfLen df - 1)).foldl (step1 df) bqm
  (List.range' 1 (dfLen df - 1)).foldl (step2 df) bqm

/-- Date column of the hardcoded data dict. -/
def data_Date : List (List Char) :=
  [ "2024.03.05 16:45".data, "2024.03.05 17:00".data, "2024.03.05 17:15".data,
    "2024.03.05 17:30".data, "2024.03.05 17:45".data, "2024.03.05 18:00".data,
    "2024.03.05 18:15".data, "2024.03.05 18:30".data, "2024.03.05 18:45".data,
    "2024.03.05 19:00".data, "2024.03.05 19:15".data, "2024.03.05 19:30".data,
    "2024.03.05 19:45".data, "2024.03.05 20:00".data ]

/-- Close column of the hardcoded data dict. -/
def data_Close : List ℚ :=
  [8.94, 8.96, 8.55, 8.46, 8.49, 8.59, 8.53, 8.53, 8.71, 8.52, 8.47, 8.52, 8.22, 8.56]

/-- Assignment of the derived signal columns: Buy_Signal is True exactly at
odd positions, Sell_Signal is all False. -/
def assignSignals (df : DataFrame) : DataFrame :=
  { df with
    Buy_Signal := (List.range (dfLen df)).map (fun i => if i % 2 != 0 then true else false),
    Sell_Signal := (List.range (dfLen df)).map (fun _ => false) }

/-- pd.DataFrame data for a data dict with Date and Close columns only
(the signal columns do not exist yet). -/
def mkFrame (dates : List (List Char)) (closes : List ℚ) : DataFrame :=
  { Date := dates, Close := closes, Buy_Signal := [], Sell_Signal := [] }

/-- A frame over an arbitrary price series with the default signal rule
applied, exactly as the script does for its hardcoded data. -/
def defaultDf (dates : List (List Char)) (closes : List ℚ) : DataFrame :=
  assignSignals (mkFrame dates closes)

/-- The module level df of the script. -/
def df0 : DataFrame := defaultDf data_Date data_Close

/-- get_optimal_buy_prices from the script: iterate the response samples,
and for every key containing the buy tag whose value is 1, append Close at
the parsed index. A sample is an association list from variable name to
value, paired with its energy. -/
def get_optimal_buy_prices (response : List (List (List Char × Nat) × ℚ))
    (df : DataFrame) : List ℚ :=
  response.foldl (fun acc se =>
    se.1.foldl (fun acc2 kv =>
      if containsSeg buyTag kv.1 && (kv.2 == 1) then acc2 ++ [closeAt df (parseIndex kv.1)]
      else acc2) acc) []

/-- Message of the ValueError raised by Python min on an empty sequence. -/
def msgEmptySeq : List Char := "min() arg is an empty sequence".data

/-- Message of the explicit empty-result condition required by the spec. -/
def msgNoOptimal : List Char := "no optimal buy price found".data

deriving instance DecidableEq for Except

/-- Python min over a list of floats: the first minimal element, or the
empty-sequence ValueError on an empty list. -/
def pymin (l : List ℚ) : Except (List Char) ℚ :=
  match l with
  | [] => Except.error msgEmptySeq
  | x :: xs => Except.ok (xs.foldl (fun a b => if b < a then b else a) x)

/-- Steps 3 and 4 of main: extract the optimal buy prices from a response
and take their minimum as the best entry price. -/
def mainBest (response : List (List (List Char × Nat) × ℚ))
    (df : DataFrame) : Except (List Char) ℚ :=
  pymin (get_optimal_buy_prices response df)

/-- Number of decimal digits used to render a terminating decimal
(at least one, as pandas renders floats). -/
def decimalWidth (q : ℚ) : Nat :=
  (((List.range 20).filter (fun k => ((q * (10 : ℚ) ^ (k + 1)).den == 1))).headD 19) + 1

/-- Decimal rendering of a nonnegative terminating decimal, as pandas
to_csv renders the float Close column. -/
def renderQ (q : ℚ) : List Char :=
  let k := decimalWidth q
  let m := (q * (10 : ℚ) ^ k).num.natAbs
  let ds := natDigits m
  let ds := if ds.length < k + 1 then List.replicate (k + 1 - ds.length) '0' ++ ds else ds
  ds.take (ds.length - k) ++ '.' :: ds.drop (ds.length - k)

/-- pandas rendering of booleans in to_csv. -/
def renderBool (b : Bool) : List Char := if b then "True".data else "False".data

/-- Header row written by df.to_csv with index False: the column names. -/
def csvHeader : List (List Char) :=
  [ "Date".data, "Close".data, "Buy_Signal".data, "Sell_Signal".data ]

/-- df.to_csv with index False, at the level of rows of rendered fields:
one header row followed by one data row per DataFrame row. -/
def csvRows (df : DataFrame) : List (List (List Char)) :=
  csvHeader :: (List.range (dfLen df)).map (fun i =>
    [ df.Date.getD i [], renderQ (closeAt df i), renderBool (buySigAt df i),
      renderBool (sellSigAt df i) ])

/-- All 0/1 assignments over a list of variable names, as association
lists in name order. -/
def allAssignments : List (List Char) → List (List (List Char × Nat))
  | [] => [[]]
  | v :: vs => (allAssignments vs).flatMap (fun a => [(v, 0) :: a, (v, 1) :: a])

/-- Value of a variable under an assignment (0 when the name is absent). -/
def assignVal (a : List (List Char × Nat)) (v : List Char) : Nat :=
  ((a.find? (fun p => p.1 == v)).map Prod.snd).getD 0

/-- Energy of an assignment: linear biases plus quadratic couplings. -/
def energy (bqm : BQM) (a : List (List Char × Nat)) : ℚ :=
  bqm.linear.foldl (fun s p => s + p.2 * (assignVal a p.1 : ℚ)) 0 +
    bqm.quadratic.foldl (fun s q =>
      s + q.2 * (assignVal a q.1.1 : ℚ) * (assignVal a q.1.2 : ℚ)) 0

/-- Modelled from the spec: solve_bqm delegates to the external D-Wave
sampler, which is not part of this repository; following the spec section
4.4 on substitutability, this is a deterministic exact solver returning
the minimum energy assignment (the first in enumeration order on ties). -/
def bruteSolve (bqm : BQM) : List (List Char × Nat) × ℚ :=
  match allAssignments (bqm.linear.map Prod.fst) with
  | [] => ([], 0)
  | a :: rest => rest.foldl (fun best x =>
      if energy bqm x < best.2 then (x, energy bqm x) else best) (a, energy bqm a)

/-- Response produced by the substituted solver: the single minimum energy
sample with its energy. -/
def bruteResponse (bqm : BQM) : List (List (List Char × Nat) × ℚ) := [bruteSolve bqm]

/-- Close prices at the odd indices of a frame (spec section 8 item 5:
the close prices among all odd-indexed entries). -/
def oddCloses (df : DataFrame) : List ℚ :=
  ((List.range (dfLen df)).filter (fun i => i % 2 == 1)).map (closeAt df)

/-- Kind of a decision variable (spec section 3, DecisionVariable). -/
inductive VarKind
  | buy
  | sell
deriving DecidableEq

/-- Encoded name of a structured decision variable, as built by create_bqm. -/
def encodeVar : VarKind → Nat → List Char
  | VarKind.buy, i => buyName i
  | VarKind.sell, i => sellName i

/-- A structured sample rendered into the string-keyed form the script
receives from the sampler. -/
def encodeSample (s : List ((VarKind × Nat) × Nat)) : List (List Char × Nat) :=
  s.map (fun kv => (encodeVar kv.1.1 kv.1.2, kv.2))

/-- A structured response rendered into string-keyed samples. -/
def encodeResponse (r : List (List ((VarKind × Nat) × Nat) × ℚ)) :
    List (List (List Char × Nat) × ℚ) :=
  r.map (fun se => (encodeSample se.1, se.2))

/-- Result Extractor as worded by the spec (section 4.5): for every
solution, for every assignment in it, if the kind is buy and the assigned
value is 1, append the close price at the index of that variable. -/
def specExtract (r : List (List ((VarKind × Nat) × Nat) × ℚ)) (df : DataFrame) : List ℚ :=
  r.flatMap (fun se => se.1.filterMap (fun kv =>
    if kv.1.1 = VarKind.buy ∧ kv.2 = 1 then some (closeAt df kv.1.2) else none))

/-- State threaded form of create_bqm: the frame is part of the loop state,
read at every iteration and never written, and is returned with the model. -/
def create_bqm_st (df : DataFrame) : BQM × DataFrame :=
  let s : BQM × DataFrame := (BQM.empty, df)
  let s := (List.range' 1 (dfLen df - 1)).foldl (fun s i => (step1 s.2 s.1 i, s.2)) s
  (List.range' 1 (dfLen df - 1)).foldl (fun s i => (step2 s.2 s.1 i, s.2)) s

/-- State threaded form of get_optimal_buy_prices: the frame is part of the
loop state, read at every iteration and never written. -/
def get_optimal_buy_prices_st (response : List (List (List Char × Nat) × ℚ))
    (df : DataFrame) : List ℚ × DataFrame :=
  response.foldl (fun s se =>
    se.1.foldl (fun s2 kv =>
      if containsSeg buyTag kv.1 && (kv.2 == 1) then
        (s2.1 ++ [closeAt s2.2 (parseIndex kv.1)], s2.2)
      else s2) s) ([], df)

/-- The linear terms the first loop of create_bqm produces at index i. -/
def linPiece (df : DataFrame) (i : Nat) : List (List Char × ℚ) :=
  (if buySigAt df i then [(buyName i, -(closeAt df i))] else []) ++
  (if sellSigAt df i then [(sellName i, closeAt df i)] else [])

/-- The linear terms create_bqm produces, written as one flat list. -/
def linearSpec (df : DataFrame) : List (List Char × ℚ) :=
  (List.range' 1 (dfLen df - 1)).flatMap (linPiece df)

/-! Basic facts about the digit encoding and the name round-trip. -/

theorem digitChar_toNat (d : Nat) (h : d < 10) : (digitChar d).toNat = 48 + d := by
  interval_cases d <;> rfl

theorem natDigitsAux_eq_of_le (f1 : Nat) :
    ∀ f2 n, n ≤ f1 → n ≤ f2 → natDigitsAux f1 n = natDigitsAux f2 n := by
  induction f1 with
  | zero =>
    intro f2 n h1 _
    have hn : n = 0 := by omega
    subst hn
    cases f2 <;> simp [natDigitsAux]
  | succ m ih =>
    intro f2 n h1 h2
    cases f2 with
    | zero =>
      have hn : n = 0 := by omega
      subst hn
      simp [natDigitsAux]
    | succ k =>
      rw [natDigitsAux, natDigitsAux]
      split
      · rfl
      · rename_i hge
        rw [ih k (n / 10) (by omega) (by omega)]

theorem natDigits_eq (n : Nat) :
    natDigits n = if n < 10 then [digitChar n] else natDigits (n / 10) ++ [digitChar (n % 10)] := by
  rw [natDigits]
  cases n with
  | zero => simp [natDigitsAux]
  | succ m =>
    rw [natDigitsAux]
    split
    · rfl
    · rename_i hge
      rw [natDigits,
        natDigitsAux_eq_of_le m ((m + 1) / 10) ((m + 1) / 10) (by omega) (by omega)]

theorem mem_natDigits_range (n : Nat) :
    ∀ c ∈ natDigits n, 48 ≤ c.toNat ∧ c.toNat ≤ 57 := by
  induction n using Nat.strong_induction_on with
  | _ n ih =>
    intro c hc
    rw [natDigits_eq] at hc
    split at hc
    · rename_i h
      simp only [List.mem_singleton] at hc
      subst hc
      rw [digitChar_toNat n h]
      omega
    · rename_i h
      rcases List.mem_append.1 hc with h1 | h1
      · exact ih (n / 10) (Nat.div_lt_self (by omega) (by omega)) c h1
      · simp only [List.mem_singleton] at h1
        subst h1
        rw [digitChar_toNat (n % 10) (by omega)]
        omega

theorem natDigits_parse (n : Nat) : parseDigits (natDigits n) = n := by
  induction n using Nat.strong_induction_on with
  | _ n ih =>
    rw [natDigits_eq]
    split
    · rename_i h
      simp only [parseDigits, List.foldl_cons, List.foldl_nil]
      rw [digitChar_toNat n h]
      omega
    · rename_i h
      have ih1 := ih (n / 10) (Nat.div_lt_self (by omega) (by omega))
      simp only [parseDigits, List.foldl_append, List.foldl_cons, List.foldl_nil] at ih1 ⊢
      rw [ih1, digitChar_toNat (n % 10) (by omega)]
      omega

theorem natDigits_inj {m n : Nat} (h : natDigits m = natDigits n) : m = n := by
  have hm := natDigits_parse m
  rw [h, natDigits_parse] at hm
  omega

theorem underscore_not_mem_natDigits (n : Nat) : '_' ∉ natDigits n := by
  intro h
  have h1 := mem_natDigits_range n '_' h
  have h2 : ('_').toNat = 95 := rfl
  omega

theorem splitOnCharAux_no_sep (c : Char) (l : List Char) (h : c ∉ l) :
    ∀ cur, splitOnCharAux c cur l = [cur.reverse ++ l] := by
  induction l with
  | nil => intro cur; simp [splitOnCharAux]
  | cons x xs ih =>
    intro cur
    have h1 : x ≠ c := fun e => h (e ▸ List.mem_cons_self x xs)
    have h2 : c ∉ xs := fun e => h (List.mem_cons_of_mem x e)
    rw [splitOnCharAux, if_neg h1, ih h2]
    simp

theorem splitOnCharAux_sep (c : Char) (l1 l2 : List Char) (h : c ∉ l1) :
    ∀ cur, splitOnCharAux c cur (l1 ++ c :: l2) =
      (cur.reverse ++ l1) :: splitOnCharAux c [] l2 := by
  induction l1 with
  | nil => intro cur; simp [splitOnCharAux]
  | cons x xs ih =>
    intro cur
    have h1 : x ≠ c := fun e => h (e ▸ List.mem_cons_self x xs)
    have h2 : c ∉ xs := fun e => h (List.mem_cons_of_mem x e)
    rw [List.cons_append, splitOnCharAux, if_neg h1, ih h2]
    simp

theorem parseIndex_buyName (i : Nat) : parseIndex (buyName i) = i := by
  have h1 : ('_' : Char) ∉ ['b', 'u', 'y'] := by decide
  have h2 := underscore_not_mem_natDigits i
  have hs : splitOnChar '_' (buyName i) = [['b', 'u', 'y'], natDigits i] := by
    show splitOnCharAux '_' [] (['b', 'u', 'y'] ++ '_' :: natDigits i) = _
    rw [splitOnCharAux_sep '_' _ _ h1, splitOnCharAux_no_sep '_' _ h2]
    simp
  rw [parseIndex, hs]
  simp [natDigits_parse]

theorem startsWithSeg_append (p r : List Char) : startsWithSeg p (p ++ r) = true := by
  induction p with
  | nil => rfl
  | cons a ps ih => simp [startsWithSeg, ih]

theorem containsSeg_of_starts (p l : List Char) (h : startsWithSeg p l = true) :
    containsSeg p l = true := by
  cases l with
  | nil => simpa [containsSeg] using h
  | cons x xs => simp [containsSeg, h]

theorem mem_of_containsSeg_cons (a : Char) (p l : List Char)
    (h : containsSeg (a :: p) l = true) : a ∈ l := by
  induction l with
  | nil => simp [containsSeg, startsWithSeg] at h
  | cons x xs ih =>
    rw [containsSeg, Bool.or_eq_true] at h
    rcases h with h1 | h1
    · rw [startsWithSeg, Bool.and_eq_true] at h1
      have hax : a = x := by simpa using h1.1
      simp [hax]
    · exact List.mem_cons_of_mem _ (ih h1)

theorem containsSeg_buyTag_buyName (i : Nat) : containsSeg buyTag (buyName i) = true := by
  apply containsSeg_of_starts
  show startsWithSeg buyTag (buyTag ++ natDigits i) = true
  exact startsWithSeg_append _ _

theorem containsSeg_buyTag_sellName (i : Nat) : containsSeg buyTag (sellName i) = false := by
  cases h : containsSeg buyTag (sellName i) with
  | false => rfl
  | true =>
    exfalso
    have hmem : 'b' ∈ sellName i := mem_of_containsSeg_cons 'b' _ _ h
    rw [sellName] at hmem
    simp only [List.mem_cons] at hmem
    have hb : ('b').toNat = 98 := rfl
    rcases hmem with h1 | h1 | h1 | h1 | h1 | h1
    · exact absurd h1 (by decide)
    · exact absurd h1 (by decide)
    · exact absurd h1 (by decide)
    · exact absurd h1 (by decide)
    · exact absurd h1 (by decide)
    · have := mem_natDigits_range i 'b' h1
      omega

theorem buyName_inj {i j : Nat} (h : buyName i = buyName j) : i = j := by
  rw [buyName, buyName] at h
  injection h with e1 h; injection h with e2 h; injection h with e3 h; injection h with e4 h
  exact natDigits_inj h

theorem sellName_inj {i j : Nat} (h : sellName i = sellName j) : i = j := by
  rw [sellName, sellName] at h
  injection h with e1 h; injection h with e2 h; injection h with e3 h
  injection h with e4 h; injection h with e5 h
  exact natDigits_inj h

theorem buyName_ne_sellName (i j : Nat) : buyName i ≠ sellName j := by
  intro h
  rw [buyName, sellName] at h
  injection h with e1 h
  exact absurd e1 (by decide)

/-- C10: the variable-name encoding of the Model Builder and the decoding
of the Result Extractor round-trip: splitting the buy variable name on the
underscore and parsing field 1 recovers the index, and the buy tag
substring test holds for every buy name and for no sell name. -/
theorem c10_name_roundtrip (i : Nat) :
    parseIndex (buyName i) = i ∧
    containsSeg buyTag (buyName i) = true ∧
    containsSeg buyTag (sellName i) = false :=
  ⟨parseIndex_buyName i, containsSeg_buyTag_buyName i, containsSeg_buyTag_sellName i⟩

/-! Characterization of the linear part of create_bqm. -/

theorem addVariable_quadratic (b : BQM) (v : List Char) (bias : ℚ) :
    (addVariable b v bias).quadratic = b.quadratic := by
  rw [addVariable]
  split <;> rfl

theorem addVariable_fresh (b : BQM) (v : List Char) (bias : ℚ)
    (h : ∀ p ∈ b.linear, p.1 ≠ v) :
    (addVariable b v bias).linear = b.linear ++ [(v, bias)] := by
  have hany : b.linear.any (fun p => p.1 == v) = false := by
    rw [List.any_eq_false]
    intro p hp
    simpa using h p hp
  rw [addVariable, hany]
  rfl

theorem mem_linPiece_cases (df : DataFrame) (i : Nat) (p : List Char × ℚ)
    (h : p ∈ linPiece df i) :
    (buySigAt df i = true ∧ p = (buyName i, -(closeAt df i))) ∨
    (sellSigAt df i = true ∧ p = (sellName i, closeAt df i)) := by
  rw [linPiece] at h
  rcases List.mem_append.1 h with h1 | h1
  · left
    split at h1
    · rename_i hb
      simp only [List.mem_singleton] at h1
      exact ⟨hb, h1⟩
    · simp at h1
  · right
    split at h1
    · rename_i hs
      simp only [List.mem_singleton] at h1
      exact ⟨hs, h1⟩
    · simp at h1

theorem step1_fresh (df : DataFrame) (b : BQM) (i : Nat)
    (hb : ∀ p ∈ b.linear, p.1 ≠ buyName i)
    (hs : ∀ p ∈ b.linear, p.1 ≠ sellName i) :
    (step1 df b i).linear = b.linear ++ linPiece df i ∧
    (step1 df b i).quadratic = b.quadratic := by
  rw [step1, linPiece]
  cases hbuy : buySigAt df i with
  | false =>
    cases hsell : sellSigAt df i with
    | false => simp
    | true =>
      simp only [Bool.false_eq_true, if_false, if_true, List.nil_append]
      exact ⟨addVariable_fresh b _ _ hs, addVariable_quadratic b _ _⟩
  | true =>
    cases hsell : sellSigAt df i with
    | false =>
      simp only [Bool.false_eq_true, if_false, if_true, List.append_nil]
      exact ⟨addVariable_fresh b _ _ hb, addVariable_quadratic b _ _⟩
    | true =>
      simp only [if_true]
      have e1 : (addVariable b (buyName i) (-(closeAt df i))).linear =
          b.linear ++ [(buyName i, -(closeAt df i))] := addVariable_fresh b _ _ hb
      have hs2 : ∀ p ∈ (addVariable b (buyName i) (-(closeAt df i))).linear,
          p.1 ≠ sellName i := by
        intro p hp
        rw [e1] at hp
        rcases List.mem_append.1 hp with h1 | h1
        · exact hs p h1
        · simp only [List.mem_singleton] at h1
          rw [h1]
          exact buyName_ne_sellName i i
      constructor
      · rw [addVariable_fresh _ _ _ hs2, e1, List.append_assoc]
      · rw [addVariable_quadratic, addVariable_quadratic]

theorem foldl_step1 (df : DataFrame) (l : List Nat) :
    ∀ b : BQM,
      (∀ i ∈ l, ∀ p ∈ b.linear, p.1 ≠ buyName i ∧ p.1 ≠ sellName i) →
      l.Nodup →
      (l.foldl (step1 df) b).linear = b.linear ++ l.flatMap (linPiece df) ∧
      (l.foldl (step1 df) b).quadratic = b.quadratic := by
  induction l with
  | nil =>
    intro b _ _
    simp
  | cons i t ih =>
    intro b h hnd
    rw [List.foldl_cons]
    have hstep := step1_fresh df b i
      (fun p hp => (h i (List.mem_cons_self i t) p hp).1)
      (fun p hp => (h i (List.mem_cons_self i t) p hp).2)
    have hit : i ∉ t := (List.nodup_cons.1 hnd).1
    have h' : ∀ j ∈ t, ∀ p ∈ (step1 df b i).linear, p.1 ≠ buyName j ∧ p.1 ≠ sellName j := by
      intro j hj p hp
      rw [hstep.1] at hp
      rcases List.mem_append.1 hp with hp1 | hp1
      · exact h j (List.mem_cons_of_mem i hj) p hp1
      · have hij : i ≠ j := fun e => hit (e ▸ hj)
        rcases mem_linPiece_cases df i p hp1 with ⟨_, e⟩ | ⟨_, e⟩
        · rw [e]
          exact ⟨fun hc => hij (buyName_inj hc), buyName_ne_sellName i j⟩
        · rw [e]
          exact ⟨fun hc => buyName_ne_sellName j i hc.symm,
            fun hc => hij (sellName_inj hc)⟩
    have hrec := ih (step1 df b i) h' (List.nodup_cons.1 hnd).2
    refine ⟨?_, ?_⟩
    · rw [hrec.1, hstep.1, List.flatMap_cons, List.append_assoc]
    · rw [hrec.2, hstep.2]

theorem addInteraction_linear (b : BQM) (u v : List Char) (w : ℚ)
    (hu : ∃ p ∈ b.linear, p.1 = u) (hv : ∃ p ∈ b.linear, p.1 = v) :
    (addInteraction b u v w).linear = b.linear := by
  have h1 : b.linear.any (fun p => p.1 == u) = true := by
    rw [List.any_eq_true]
    obtain ⟨p, hp, e⟩ := hu
    exact ⟨p, hp, by simp [e]⟩
  have h2 : b.linear.any (fun p => p.1 == v) = true := by
    rw [List.any_eq_true]
    obtain ⟨p, hp, e⟩ := hv
    exact ⟨p, hp, by simp [e]⟩
  rw [addInteraction]
  simp only [h1, h2, if_true]
  split <;> rfl

theorem foldl_step2 (df : DataFrame) (l : List Nat) :
    ∀ b : BQM,
      (∀ i ∈ l, (buySigAt df i && sellSigAt df i) = true →
        (∃ p ∈ b.linear, p.1 = buyName i) ∧ (∃ p ∈ b.linear, p.1 = sellName i)) →
      (l.foldl (step2 df) b).linear = b.linear := by
  induction l with
  | nil =>
    intro b _
    rfl
  | cons i t ih =>
    intro b h
    rw [List.foldl_cons]
    have hstep : (step2 df b i).linear = b.linear := by
      rw [step2]
      split
      · rename_i hc
        exact addInteraction_linear b _ _ 1
          (h i (List.mem_cons_self i t) hc).1 (h i (List.mem_cons_self i t) hc).2
      · rfl
    rw [ih (step2 df b i) (by
      intro j hj hc
      rw [hstep]
      exact h j (List.mem_cons_of_mem i hj) hc), hstep]

theorem create_bqm_loop1 (df : DataFrame) :
    ((List.range' 1 (dfLen df - 1)).foldl (step1 df) BQM.empty).linear = linearSpec df ∧
    ((List.range' 1 (dfLen df - 1)).foldl (step1 df) BQM.empty).quadratic = [] := by
  have h := foldl_step1 df (List.range' 1 (dfLen df - 1)) BQM.empty
    (by intro i _ p hp; simp [BQM.empty] at hp)
    (List.nodup_range' 1 (dfLen df - 1) 1 (by norm_num))
  refine ⟨?_, h.2⟩
  rw [h.1, linearSpec]
  rfl

theorem buyName_mem_linearSpec (df : DataFrame) (i : Nat)
    (hi : i ∈ List.range' 1 (dfLen df - 1)) (hb : buySigAt df i = true) :
    ∃ p ∈ linearSpec df, p.1 = buyName i := by
  refine ⟨(buyName i, -(closeAt df i)), ?_, rfl⟩
  rw [linearSpec]
  exact List.mem_flatMap.2 ⟨i, hi, by rw [linPiece]; simp [hb]⟩

theorem sellName_mem_linearSpec (df : DataFrame) (i : Nat)
    (hi : i ∈ List.range' 1 (dfLen df - 1)) (hs : sellSigAt df i = true) :
    ∃ p ∈ linearSpec df, p.1 = sellName i := by
  refine ⟨(sellName i, closeAt df i), ?_, rfl⟩
  rw [linearSpec]
  exact List.mem_flatMap.2 ⟨i, hi, by rw [linPiece]; simp [hs]⟩

theorem create_bqm_linear (df : DataFrame) : (create_bqm df).linear = linearSpec df := by
  show ((List.range' 1 (dfLen df - 1)).foldl (step2 df)
    ((List.range' 1 (dfLen df - 1)).foldl (step1 df) BQM.empty)).linear = linearSpec df
  have h1 := create_bqm_loop1 df
  rw [foldl_step2 df _ _ (by
    intro i hi hc
    rw [Bool.and_eq_true] at hc
    rw [h1.1]
    exact ⟨buyName_mem_linearSpec df i hi hc.1, sellName_mem_linearSpec df i hi hc.2⟩)]
  exact h1.1

/-! Signal columns of a frame built under the default rule. -/

theorem sellSigAt_defaultDf (dates : List (List Char)) (closes : List ℚ) (i : Nat) :
    sellSigAt (defaultDf dates closes) i = false := by
  show List.getD ((List.range closes.length).map (fun _ => false)) i false = false
  rw [List.getD_eq_getElem?_getD, List.getElem?_map]
  cases (List.range closes.length)[i]? <;> rfl

theorem buySigAt_defaultDf_lt (dates : List (List Char)) (closes : List ℚ) (i : Nat)
    (h : i < closes.length) :
    buySigAt (defaultDf dates closes) i = (i % 2 != 0) := by
  show List.getD ((List.range closes.length).map
    (fun j => if j % 2 != 0 then true else false)) i false = (i % 2 != 0)
  rw [List.getD_eq_getElem?_getD, List.getElem?_map, List.getElem?_range h]
  show (if i % 2 != 0 then true else false) = (i % 2 != 0)
  cases hb : (i % 2 != 0) <;> rfl

theorem buySigAt_defaultDf_ge (dates : List (List Char)) (closes : List ℚ) (i : Nat)
    (h : closes.length ≤ i) :
    buySigAt (defaultDf dates closes) i = false := by
  show List.getD ((List.range closes.length).map
    (fun j => if j % 2 != 0 then true else false)) i false = false
  rw [List.getD_eq_getElem?_getD, List.getElem?_map, List.getElem?_eq_none (by simpa)]
  rfl

theorem dfLen_defaultDf (dates : List (List Char)) (closes : List ℚ) :
    dfLen (defaultDf dates closes) = closes.length := rfl

/-- C2: under the default signal rule, for every price series, a buy
decision variable for index i exists iff i is odd and 1 ≤ i < N, and no
sell decision variable ever exists. -/
theorem c2_default_variables (dates : List (List Char)) (closes : List ℚ) (i : Nat) :
    (buyName i ∈ (create_bqm (defaultDf dates closes)).linear.map Prod.fst ↔
      i % 2 = 1 ∧ 1 ≤ i ∧ i < closes.length) ∧
    sellName i ∉ (create_bqm (defaultDf dates closes)).linear.map Prod.fst := by
  rw [create_bqm_linear]
  constructor
  · constructor
    · intro h
      rw [List.mem_map] at h
      obtain ⟨p, hp, he⟩ := h
      rw [linearSpec, List.mem_flatMap] at hp
      obtain ⟨j, hj, hpj⟩ := hp
      have hjr := List.mem_range'_1.1 hj
      rcases mem_linPiece_cases _ j p hpj with ⟨hbj, e⟩ | ⟨_, e⟩
      · have he' : buyName j = buyName i := by rw [e] at he; exact he
        have hij : j = i := buyName_inj he'
        subst hij
        by_cases hlt : j < closes.length
        · rw [buySigAt_defaultDf_lt dates closes j hlt] at hbj
          simp only [bne_iff_ne, ne_eq] at hbj
          exact ⟨by omega, hjr.1, hlt⟩
        · rw [buySigAt_defaultDf_ge dates closes j (by omega)] at hbj
          exact absurd hbj (by simp)
      · have he' : sellName j = buyName i := by rw [e] at he; exact he
        exact absurd he'.symm (buyName_ne_sellName i j)
    · rintro ⟨h1, h2, h3⟩
      rw [List.mem_map]
      refine ⟨(buyName i, -(closeAt (defaultDf dates closes) i)), ?_, rfl⟩
      rw [linearSpec, List.mem_flatMap]
      refine ⟨i, List.mem_range'_1.2 ⟨h2, ?_⟩, ?_⟩
      · have hn : dfLen (defaultDf dates closes) = closes.length := rfl
        omega
      · have hb : buySigAt (defaultDf dates closes) i = true := by
          rw [buySigAt_defaultDf_lt dates closes i h3]
          simp [h1]
        rw [linPiece, hb, sellSigAt_defaultDf]
        simp
  · intro h
    rw [List.mem_map] at h
    obtain ⟨p, hp, he⟩ := h
    rw [linearSpec, List.mem_flatMap] at hp
    obtain ⟨j, hj, hpj⟩ := hp
    rcases mem_linPiece_cases _ j p hpj with ⟨_, e⟩ | ⟨hsj, e⟩
    · have he' : buyName j = sellName i := by rw [e] at he; exact he
      exact buyName_ne_sellName j i he'
    · rw [sellSigAt_defaultDf] at hsj
      exact absurd hsj (by simp)

/-- C3: every buy variable created by create_bqm carries linear bias
exactly the negated close price at its index, and every sell variable
carries exactly the raw close price, for every frame. -/
theorem c3_linear_bias (df : DataFrame) (i : Nat) (q : ℚ) :
    ((buyName i, q) ∈ (create_bqm df).linear → q = -(closeAt df i)) ∧
    ((sellName i, q) ∈ (create_bqm df).linear → q = closeAt df i) := by
  rw [create_bqm_linear]
  constructor
  · intro h
    rw [linearSpec, List.mem_flatMap] at h
    obtain ⟨j, hj, hpj⟩ := h
    rcases mem_linPiece_cases df j _ hpj with ⟨_, e⟩ | ⟨_, e⟩
    · have e1 : buyName i = buyName j := congrArg Prod.fst e
      have e2 : q = -(closeAt df j) := congrArg Prod.snd e
      rw [buyName_inj e1]
      exact e2
    · have e1 : buyName i = sellName j := congrArg Prod.fst e
      exact absurd e1 (buyName_ne_sellName i j)
  · intro h
    rw [linearSpec, List.mem_flatMap] at h
    obtain ⟨j, hj, hpj⟩ := h
    rcases mem_linPiece_cases df j _ hpj with ⟨_, e⟩ | ⟨_, e⟩
    · have e1 : sellName i = buyName j := congrArg Prod.fst e
      exact absurd e1.symm (buyName_ne_sellName j i)
    · have e1 : sellName i = sellName j := congrArg Prod.fst e
      have e2 : q = closeAt df j := congrArg Prod.snd e
      rw [sellName_inj e1]
      exact e2

section

attribute [local semireducible] Rat.add Rat.mul Rat.inv Rat.sub Rat.ofScientific

theorem c3_linear_bias_witness : -(8.96 : ℚ) = -(closeAt df0 1) :=
  (c3_linear_bias df0 1 (-(8.96 : ℚ))).1 (by decide)

end

theorem step2_id_of_no_sell (df : DataFrame) (b : BQM) (i : Nat)
    (hs : sellSigAt df i = false) : step2 df b i = b := by
  rw [step2, hs]
  simp

theorem foldl_step2_id (df : DataFrame) (l : List Nat) (b : BQM)
    (h : ∀ i ∈ l, sellSigAt df i = false) : l.foldl (step2 df) b = b := by
  induction l with
  | nil => rfl
  | cons i t ih =>
    rw [List.foldl_cons, step2_id_of_no_sell df b i (h i (List.mem_cons_self i t))]
    exact ih (fun j hj => h j (List.mem_cons_of_mem i hj))

/-- C7: under the default signal rule the Objective never contains a
pairwise interaction term, for every price series. -/
theorem c7_no_interactions (dates : List (List Char)) (closes : List ℚ) :
    (create_bqm (defaultDf dates closes)).quadratic = [] := by
  show ((List.range' 1 (dfLen (defaultDf dates closes) - 1)).foldl
    (step2 (defaultDf dates closes))
    ((List.range' 1 (dfLen (defaultDf dates closes) - 1)).foldl
      (step1 (defaultDf dates closes)) BQM.empty)).quadratic = []
  rw [foldl_step2_id _ _ _ (fun i _ => sellSigAt_defaultDf dates closes i)]
  exact (create_bqm_loop1 (defaultDf dates closes)).2

/-- C8: create_bqm never creates a decision variable for index 0,
whatever the frame and its signal flags are. -/
theorem c8_no_index_zero (df : DataFrame) (_h : 2 ≤ dfLen df) :
    buyName 0 ∉ (create_bqm df).linear.map Prod.fst ∧
    sellName 0 ∉ (create_bqm df).linear.map Prod.fst := by
  rw [create_bqm_linear]
  constructor
  · intro hm
    rw [List.mem_map] at hm
    obtain ⟨p, hp, he⟩ := hm
    rw [linearSpec, List.mem_flatMap] at hp
    obtain ⟨j, hj, hpj⟩ := hp
    have hj1 : 1 ≤ j := (List.mem_range'_1.1 hj).1
    rcases mem_linPiece_cases df j p hpj with ⟨_, e⟩ | ⟨_, e⟩
    · have e1 : buyName j = buyName 0 := by rw [e] at he; exact he
      have := buyName_inj e1
      omega
    · have e1 : sellName j = buyName 0 := by rw [e] at he; exact he
      exact buyName_ne_sellName 0 j e1.symm
  · intro hm
    rw [List.mem_map] at hm
    obtain ⟨p, hp, he⟩ := hm
    rw [linearSpec, List.mem_flatMap] at hp
    obtain ⟨j, hj, hpj⟩ := hp
    have hj1 : 1 ≤ j := (List.mem_range'_1.1 hj).1
    rcases mem_linPiece_cases df j p hpj with ⟨_, e⟩ | ⟨_, e⟩
    · have e1 : buyName j = sellName 0 := by rw [e] at he; exact he
      exact buyName_ne_sellName j 0 e1
    · have e1 : sellName j = sellName 0 := by rw [e] at he; exact he
      have := sellName_inj e1
      omega

theorem c8_no_index_zero_witness :
    2 ≤ dfLen df0 ∧
      (buyName 0 ∉ (create_bqm df0).linear.map Prod.fst ∧
        sellName 0 ∉ (create_bqm df0).linear.map Prod.fst) :=
  ⟨by decide, c8_no_index_zero df0 (by decide)⟩

/-! The Result Extractor as a flat list, and the refinement to the spec. -/

theorem foldl_collect_inner (df : DataFrame) (s : List (List Char × Nat)) :
    ∀ acc : List ℚ,
      s.foldl (fun acc2 kv =>
        if containsSeg buyTag kv.1 && (kv.2 == 1) then acc2 ++ [closeAt df (parseIndex kv.1)]
        else acc2) acc =
      acc ++ s.filterMap (fun kv =>
        if containsSeg buyTag kv.1 && (kv.2 == 1) then some (closeAt df (parseIndex kv.1))
        else none) := by
  induction s with
  | nil =>
    intro acc
    simp
  | cons kv t ih =>
    intro acc
    rw [List.foldl_cons, List.filterMap_cons]
    cases hc : (containsSeg buyTag kv.1 && (kv.2 == 1)) with
    | false =>
      simp only [Bool.false_eq_true, if_false]
      exact ih acc
    | true =>
      simp only [if_true]
      rw [ih (acc ++ [closeAt df (parseIndex kv.1)]), List.append_assoc,
        List.singleton_append]

theorem gobp_eq_flatMap (response : List (List (List Char × Nat) × ℚ)) (df : DataFrame) :
    get_optimal_buy_prices response df =
      response.flatMap (fun se => se.1.filterMap (fun kv =>
        if containsSeg buyTag kv.1 && (kv.2 == 1) then some (closeAt df (parseIndex kv.1))
        else none)) := by
  rw [get_optimal_buy_prices]
  suffices h : ∀ acc : List ℚ,
      response.foldl (fun acc se =>
        se.1.foldl (fun acc2 kv =>
          if containsSeg buyTag kv.1 && (kv.2 == 1) then acc2 ++ [closeAt df (parseIndex kv.1)]
          else acc2) acc) acc =
      acc ++ response.flatMap (fun se => se.1.filterMap (fun kv =>
        if containsSeg buyTag kv.1 && (kv.2 == 1) then some (closeAt df (parseIndex kv.1))
        else none)) by
    simpa using h []
  induction response with
  | nil =>
    intro acc
    simp
  | cons se t ih =>
    intro acc
    rw [List.foldl_cons, foldl_collect_inner df se.1 acc, ih, List.flatMap_cons,
      List.append_assoc]

theorem extract_sample_encode (df : DataFrame) (s : List ((VarKind × Nat) × Nat)) :
    (encodeSample s).filterMap (fun kv =>
      if containsSeg buyTag kv.1 && (kv.2 == 1) then some (closeAt df (parseIndex kv.1))
      else none) =
    s.filterMap (fun kv =>
      if kv.1.1 = VarKind.buy ∧ kv.2 = 1 then some (closeAt df kv.1.2) else none) := by
  rw [encodeSample, List.filterMap_map]
  congr 1
  funext kv
  obtain ⟨⟨k, i⟩, v⟩ := kv
  cases k with
  | buy =>
    simp only [Function.comp, encodeVar, containsSeg_buyTag_buyName, parseIndex_buyName,
      Bool.true_and]
    by_cases hv : v = 1
    · simp [hv]
    · simp [hv]
  | sell =>
    simp only [Function.comp, encodeVar, containsSeg_buyTag_sellName, Bool.false_and]
    simp

theorem foldl_min_mem (x : ℚ) (xs : List ℚ) :
    xs.foldl (fun a b => if b < a then b else a) x ∈ x :: xs := by
  induction xs generalizing x with
  | nil => simp
  | cons y t ih =>
    rw [List.foldl_cons]
    have h := ih (if y < x then y else x)
    rcases List.mem_cons.1 h with h1 | h1
    · rw [h1]
      split
      · exact List.mem_cons_of_mem x (List.mem_cons_self y t)
      · exact List.mem_cons_self x _
    · exact List.mem_cons_of_mem x (List.mem_cons_of_mem y h1)

theorem foldl_min_le (xs : List ℚ) :
    ∀ x : ℚ, xs.foldl (fun a b => if b < a then b else a) x ≤ x ∧
      ∀ y ∈ xs, xs.foldl (fun a b => if b < a then b else a) x ≤ y := by
  induction xs with
  | nil =>
    intro x
    simp
  | cons y t ih =>
    intro x
    rw [List.foldl_cons]
    have h := ih (if y < x then y else x)
    have hx : (if y < x then y else x) ≤ x := by
      split
      · rename_i hlt
        exact le_of_lt hlt
      · exact le_refl x
    have hy : (if y < x then y else x) ≤ y := by
      split
      · exact le_refl y
      · rename_i hge
        exact le_of_not_lt hge
    refine ⟨le_trans h.1 hx, ?_⟩
    intro z hz
    rcases List.mem_cons.1 hz with h1 | h1
    · rw [h1]
      exact le_trans h.1 hy
    · exact h.2 z h1

theorem pymin_ok (l : List ℚ) (m : ℚ) (h : pymin l = Except.ok m) :
    m ∈ l ∧ ∀ x ∈ l, m ≤ x := by
  cases l with
  | nil =>
    exact absurd h (by simp [pymin])
  | cons x xs =>
    have hm : m = xs.foldl (fun a b => if b < a then b else a) x := by
      simp only [pymin, Except.ok.injEq] at h
      exact h.symm
    subst hm
    refine ⟨foldl_min_mem x xs, ?_⟩
    intro z hz
    rcases List.mem_cons.1 hz with h1 | h1
    · rw [h1]
      exact (foldl_min_le xs x).1
    · exact (foldl_min_le xs x).2 z h1

/-- C4: on every solution set over structured decision variables, the
extractor returns exactly the close prices at the indices of buy variables
assigned 1, one entry per solution and variable occurrence, and the
best-entry-price computed by main from that list is its minimum. -/
theorem c4_extractor (r : List (List ((VarKind × Nat) × Nat) × ℚ)) (df : DataFrame) :
    get_optimal_buy_prices (encodeResponse r) df = specExtract r df ∧
    (∀ m : ℚ, pymin (specExtract r df) = Except.ok m →
      m ∈ specExtract r df ∧ ∀ x ∈ specExtract r df, m ≤ x) := by
  constructor
  · rw [gobp_eq_flatMap, encodeResponse, specExtract, List.flatMap_map]
    congr 1
    funext se
    exact extract_sample_encode df se.1
  · intro m hm
    exact pymin_ok _ m hm

section

attribute [local semireducible] Rat.add Rat.mul Rat.inv Rat.sub Rat.ofScientific

theorem c4_extractor_witness :
    (8.46 : ℚ) ∈ specExtract [([((VarKind.buy, 3), 1)], 0)] df0 ∧
      ∀ x ∈ specExtract [([((VarKind.buy, 3), 1)], 0)] df0, (8.46 : ℚ) ≤ x :=
  (c4_extractor [([((VarKind.buy, 3), 1)], 0)] df0).2 (8.46 : ℚ) (by decide)

/-- C5 counterexample: on a response in which no buy variable is ever 1
(the empty response of the hardcoded frame), main does not fail with the
explicit no-optimal-buy-price condition the claim describes. -/
theorem c5_counterexample : mainBest [] df0 ≠ Except.error msgNoOptimal := by decide

end

/-- C5 amended: when no buy variable is assigned 1 anywhere in the
response, main raises the generic empty-sequence ValueError of Python min
(so it does not return a sentinel silently), and that message is not the
explicit no-optimal-buy-price condition. -/
theorem c5_empty_error (response : List (List (List Char × Nat) × ℚ)) (df : DataFrame)
    (h : ∀ se ∈ response, ∀ kv ∈ se.1,
      ¬(containsSeg buyTag kv.1 = true ∧ kv.2 = 1)) :
    mainBest response df = Except.error msgEmptySeq ∧ msgEmptySeq ≠ msgNoOptimal := by
  refine ⟨?_, by decide⟩
  rw [mainBest, gobp_eq_flatMap]
  have hnil : (response.flatMap (fun se => se.1.filterMap (fun kv =>
      if containsSeg buyTag kv.1 && (kv.2 == 1) then some (closeAt df (parseIndex kv.1))
      else none))) = [] := by
    induction response with
    | nil => rfl
    | cons se t ih =>
      rw [List.flatMap_cons, ih (fun se2 hse2 kv hkv => h se2 (List.mem_cons_of_mem se hse2) kv hkv),
        List.append_nil]
      rw [List.filterMap_eq_nil_iff]
      intro kv hkv
      have hno := h se (List.mem_cons_self se t) kv hkv
      cases hc : (containsSeg buyTag kv.1 && (kv.2 == 1)) with
      | false => simp
      | true =>
        exfalso
        rw [Bool.and_eq_true] at hc
        exact hno ⟨hc.1, by simpa using hc.2⟩
  rw [hnil]
  rfl

theorem c5_empty_error_witness :
    mainBest [] df0 = Except.error msgEmptySeq ∧ msgEmptySeq ≠ msgNoOptimal :=
  c5_empty_error [] df0 (by simp)

/-! CSV export shape. -/

theorem csvRows_data_row (df : DataFrame) (i : Nat) (hi : i < dfLen df) :
    (csvRows df).getD (i + 1) [] =
      [ df.Date.getD i [], renderQ (closeAt df i), renderBool (buySigAt df i),
        renderBool (sellSigAt df i) ] := by
  rw [csvRows, List.getD_eq_getElem?_getD, List.getElem?_cons_succ, List.getElem?_map,
    List.getElem?_range hi]
  rfl

/-- C6 counterexample: the header row of the CSV export of the hardcoded
frame has four columns, not the three columns the claim asserts. -/
theorem c6_counterexample : ¬(((csvRows df0).headD []).length = 3) := by decide

/-- C6 amended: the CSV export is one header row of exactly four columns
(timestamp, close, buy flag, sell flag) followed by exactly one data row of
four fields per frame row, and the boolean columns of data row i render
the default signal rule at index i. -/
theorem c6_csv_shape (dates : List (List Char)) (closes : List ℚ) :
    (csvRows (defaultDf dates closes)).length = dfLen (defaultDf dates closes) + 1 ∧
    (csvRows (defaultDf dates closes)).headD [] = csvHeader ∧
    csvHeader.length = 4 ∧
    (∀ row ∈ csvRows (defaultDf dates closes), row.length = 4) ∧
    (∀ i, i < dfLen (defaultDf dates closes) →
      ((csvRows (defaultDf dates closes)).getD (i + 1) []).getD 2 [] =
        renderBool (i % 2 != 0) ∧
      ((csvRows (defaultDf dates closes)).getD (i + 1) []).getD 3 [] = renderBool false) := by
  refine ⟨?_, rfl, rfl, ?_, ?_⟩
  · rw [csvRows]
    simp
  · intro row hrow
    rw [csvRows] at hrow
    rcases List.mem_cons.1 hrow with h | h
    · rw [h]
      rfl
    · obtain ⟨i, _, e⟩ := List.mem_map.1 h
      rw [← e]
      rfl
  · intro i hi
    rw [csvRows_data_row (defaultDf dates closes) i hi]
    constructor
    · show renderBool (buySigAt (defaultDf dates closes) i) = renderBool (i % 2 != 0)
      rw [buySigAt_defaultDf_lt dates closes i hi]
    · show renderBool (sellSigAt (defaultDf dates closes) i) = renderBool false
      rw [sellSigAt_defaultDf]

theorem c6_csv_shape_witness :
    ((csvRows (defaultDf data_Date data_Close)).getD 2 []).getD 2 [] =
      renderBool (1 % 2 != 0) ∧
    ((csvRows (defaultDf data_Date data_Close)).getD 2 []).getD 3 [] = renderBool false :=
  (c6_csv_shape data_Date data_Close).2.2.2.2 1 (by decide)

/-! Frame preservation in state-passing form. -/

theorem foldl_preserves_df {α ι : Type} (g : DataFrame → α → ι → α) (l : List ι) :
    ∀ (a : α) (df : DataFrame),
      l.foldl (fun s i => (g s.2 s.1 i, s.2)) (a, df) =
        (l.foldl (fun b i => g df b i) a, df) := by
  induction l with
  | nil =>
    intro a df
    rfl
  | cons i t ih =>
    intro a df
    rw [List.foldl_cons, List.foldl_cons]
    exact ih (g df a i) df

theorem foldl2_preserves_df {α ι κ : Type} (g : DataFrame → α → κ → α)
    (sel : ι → List κ) (l : List ι) :
    ∀ (a : α) (df : DataFrame),
      l.foldl (fun s se => (sel se).foldl (fun s2 kv => (g s2.2 s2.1 kv, s2.2)) s) (a, df) =
        (l.foldl (fun b se => (sel se).foldl (fun b2 kv => g df b2 kv) b) a, df) := by
  induction l with
  | nil =>
    intro a df
    rfl
  | cons se t ih =>
    intro a df
    rw [List.foldl_cons, List.foldl_cons, foldl_preserves_df g (sel se)]
    exact ih _ df

theorem create_bqm_st_spec (df : DataFrame) : create_bqm_st df = (create_bqm df, df) := by
  show (List.range' 1 (dfLen df - 1)).foldl (fun s i => (step2 s.2 s.1 i, s.2))
      ((List.range' 1 (dfLen df - 1)).foldl (fun s i => (step1 s.2 s.1 i, s.2))
        (BQM.empty, df)) = (create_bqm df, df)
  rw [foldl_preserves_df step1, foldl_preserves_df step2]
  rfl

theorem gobp_st_spec (response : List (List (List Char × Nat) × ℚ)) (df : DataFrame) :
    get_optimal_buy_prices_st response df = (get_optimal_buy_prices response df, df) := by
  have hstep :
      (fun (s2 : List ℚ × DataFrame) (kv : List Char × Nat) =>
        if containsSeg buyTag kv.1 && (kv.2 == 1) then
          (s2.1 ++ [closeAt s2.2 (parseIndex kv.1)], s2.2)
        else s2) =
      (fun (s2 : List ℚ × DataFrame) (kv : List Char × Nat) =>
        ((fun (d : DataFrame) (b : List ℚ) (kv : List Char × Nat) =>
          if containsSeg buyTag kv.1 && (kv.2 == 1) then
            b ++ [closeAt d (parseIndex kv.1)]
          else b) s2.2 s2.1 kv, s2.2)) := by
    funext s2 kv
    cases hc : (containsSeg buyTag kv.1 && (kv.2 == 1)) <;> simp [hc]
  rw [get_optimal_buy_prices_st, hstep]
  exact foldl2_preserves_df
    (fun (d : DataFrame) (b : List ℚ) (kv : List Char × Nat) =>
      if containsSeg buyTag kv.1 && (kv.2 == 1) then b ++ [closeAt d (parseIndex kv.1)]
      else b)
    Prod.fst response [] df

/-- C9: the Model Builder and the Result Extractor leave the frame
unchanged: run in state-passing form, with the frame threaded through
every loop iteration, they return the input frame as the final state and
the same result as the direct functions. -/
theorem c9_frame_unchanged (df : DataFrame)
    (response : List (List (List Char × Nat) × ℚ)) :
    (create_bqm_st df).2 = df ∧ (create_bqm_st df).1 = create_bqm df ∧
    (get_optimal_buy_prices_st response df).2 = df ∧
    (get_optimal_buy_prices_st response df).1 = get_optimal_buy_prices response df := by
  rw [create_bqm_st_spec, gobp_st_spec]
  exact ⟨rfl, rfl, rfl, rfl⟩

section

attribute [local semireducible] Rat.add Rat.mul Rat.inv Rat.sub Rat.ofScientific

set_option maxRecDepth 40000

/-- C1: with the deterministic exact solver substituted for the external
service, repeated solves of the objective of the hardcoded frame return
the same best assignment; the best entry price computed by main from that
response is 8.46, which equals the minimum close price among the
odd-indexed entries and is the close price at index 3. -/
theorem c1_deterministic_best_price :
    bruteResponse (create_bqm df0) = bruteResponse (create_bqm df0) ∧
    mainBest (bruteResponse (create_bqm df0)) df0 = Except.ok (8.46 : ℚ) ∧
    pymin (oddCloses df0) = Except.ok (8.46 : ℚ) ∧
    closeAt df0 3 = (8.46 : ℚ) :=
  ⟨rfl, by decide, by decide, by decide⟩

end
